import Mathlib

/-!
# Pizzatron — shallow embedding and verification

A shallow embedding of the core of the Pizzatron application
(`src/db.py`, `src/ai.py`, `src/app.py`): the relational data model,
the persistence operations, the AI-gateway retry / degenerate-review
logic, the background review-persist path and the leaderboard query.
Machine-checked theorems settle the specification's claims against
these definitions.

Conventions:
* SQLite rows become Lean structures; a table is a `List` of rows in
  insertion order; each table's autoincrement counter is carried
  explicitly in `DBState`.
* Python dicts over string keys become association lists built with a
  `dictInsert` that replaces an existing key in place and otherwise
  appends — exactly the insertion-order/overwrite semantics of `dict`.
* Fallible paths are modelled with `Except` / explicit failure-point
  parameters; image bytes are opaque and modelled as `String`.
-/

namespace Pizzatron

/-! ## Data model (src/db.py, table definitions) -/

/-- Row of table `chefs` (`class Chef`): `name` is NOT NULL,
`image_path` is nullable. -/
structure Chef where
  id : Nat
  name : String
  image_path : Option String
deriving Repr, DecidableEq

/-- Row of table `pizzas` (`class Pizza`): `chef_id` is a foreign key to
`chefs.id` (declared, but SQLite does not enforce it by default and the
code never switches enforcement on). -/
structure Pizza where
  id : Nat
  chef_id : Nat
deriving Repr, DecidableEq

/-- Row of table `pizza_images` (`class PizzaImage`). -/
structure PizzaImage where
  id : Nat
  pizza_id : Nat
  image_path : String
deriving Repr, DecidableEq

/-- Row of table `review_categories` (`class ReviewCategory`): `name`
carries a UNIQUE constraint. -/
structure ReviewCategory where
  id : Nat
  name : String
deriving Repr, DecidableEq

/-- Row of table `pizza_review` (`class PizzaReview`). -/
structure PizzaReview where
  id : Nat
  pizza_id : Nat
  review_summary : String
deriving Repr, DecidableEq

/-- Row of table `pizza_review_scores` (`class PizzaReviewScore`): the
`score` column is a plain INTEGER with no CHECK constraint; the `1-5
scale` is only a comment in the source. -/
structure PizzaReviewScore where
  id : Nat
  pizza_review_id : Nat
  category_id : Nat
  score : Int
deriving Repr, DecidableEq

/-- The whole SQLite database: one list per table plus each table's
autoincrement counter. -/
structure DBState where
  chefs : List Chef
  pizzas : List Pizza
  pizza_images : List PizzaImage
  review_categories : List ReviewCategory
  pizza_review : List PizzaReview
  pizza_review_scores : List PizzaReviewScore
  nextChefId : Nat
  nextPizzaId : Nat
  nextImageId : Nat
  nextReviewId : Nat
  nextScoreId : Nat
deriving Repr, DecidableEq

/-- The empty database right after `create_tables` (categories not yet
seeded). Autoincrement starts at 1 in SQLite. -/
def DBState.empty : DBState :=
  ⟨[], [], [], [], [], [], 1, 1, 1, 1, 1⟩

/-! ## Persistence operations (src/db.py, `DatabaseManager`) -/

/-- `DatabaseManager.create_chef(name, image_path)`: constructs the row
and commits.  There is no validation of `name` in this function — an
empty string satisfies NOT NULL. -/
def create_chef (name : String) (image_path : Option String)
    (db : DBState) : Chef × DBState :=
  let chef : Chef := ⟨db.nextChefId, name, image_path⟩
  (chef, { db with chefs := db.chefs ++ [chef],
                   nextChefId := db.nextChefId + 1 })

/-- `DatabaseManager.create_pizza(chef_id)`: constructs the row and
commits.  There is no check that `chef_id` references an existing chef,
and SQLite's foreign keys are off by default (the engine is created
without a `foreign_keys` pragma), so the insert succeeds for any
`chef_id`. -/
def create_pizza (chef_id : Nat) (db : DBState) : Pizza × DBState :=
  let pizza : Pizza := ⟨db.nextPizzaId, chef_id⟩
  (pizza, { db with pizzas := db.pizzas ++ [pizza],
                    nextPizzaId := db.nextPizzaId + 1 })

/-- `DatabaseManager.add_pizza_image(pizza_id, image_path)`. -/
def add_pizza_image (pizza_id : Nat) (image_path : String)
    (db : DBState) : PizzaImage × DBState :=
  let img : PizzaImage := ⟨db.nextImageId, pizza_id, image_path⟩
  (img, { db with pizza_images := db.pizza_images ++ [img],
                  nextImageId := db.nextImageId + 1 })

/-- `DatabaseManager.get_chef_by_id(chef_id)`:
`query(Chef).filter(Chef.id == chef_id).first()`. -/
def get_chef_by_id (chef_id : Nat) (db : DBState) : Option Chef :=
  db.chefs.find? (fun c => c.id = chef_id)

/-! ## Request-layer validation (src/app.py) -/

/-- Python's `str.strip()`: drop whitespace from both ends. -/
def pyStrip (s : String) : String :=
  ⟨(((s.data.dropWhile Char.isWhitespace).reverse).dropWhile
      Char.isWhitespace).reverse⟩

/-- `create_chef_submit` (src/app.py): the handler rejects a name that
is empty or all whitespace (`not name or len(name.strip()) == 0`)
without touching the store; otherwise it creates the chef with
`name.strip()`.  (Image handling is elided: `temp_image_path` is passed
through as given.)  Returns `none` for the validation-error re-render,
`some` for the redirect. -/
def create_chef_submit (name : String) (temp_image_path : Option String)
    (db : DBState) : Option (Chef × DBState) :=
  if pyStrip name = "" then none
  else some (create_chef (pyStrip name) temp_image_path db)

/-- The chef-existence gate of `submit_pizza_handler` (src/app.py): the
handler looks the chef up first and re-renders the form without creating
anything when the chef does not exist; only then does it call
`create_pizza`. -/
def submit_pizza_create (chef_id : Nat) (db : DBState) :
    Option (Pizza × DBState) :=
  match get_chef_by_id chef_id db with
  | none => none
  | some _ => some (create_pizza chef_id db)

end Pizzatron

/-! ### Claim theorems for the simple persistence operations -/

namespace Pizzatron

/-- A database with one chef (id 1) and seeded categories, used as a
concrete state in witnesses and counterexamples. -/
def exDB : DBState :=
  { chefs := [⟨1, "Mario", none⟩]
    pizzas := []
    pizza_images := []
    review_categories :=
      [⟨1, "Shape"⟩, ⟨2, "Crust Quality"⟩, ⟨3, "Presentation"⟩,
       ⟨4, "Bake Quality"⟩, ⟨5, "Flavor (estimated)"⟩, ⟨6, "Overall"⟩]
    pizza_review := []
    pizza_review_scores := []
    nextChefId := 2, nextPizzaId := 1, nextImageId := 1
    nextReviewId := 1, nextScoreId := 1 }

/-- C2, counterexample: on the empty database (no chef exists at all),
`create_pizza 1` does not fail — it returns a Pizza row and persists it,
so "fails with NotFoundError and creates no Pizza row" is false. -/
theorem create_pizza_unknown_chef_succeeds :
    (∀ c ∈ DBState.empty.chefs, c.id ≠ 1) ∧
    (create_pizza 1 DBState.empty).2.pizzas = [⟨1, 1⟩] ∧
    (create_pizza 1 DBState.empty).1 = ⟨1, 1⟩ := by
  decide

/-- C2, amended: `create_pizza` performs no existence check — for every
state and every `chef_id`, known or not, it inserts exactly one Pizza
row with that `chef_id` and returns it; the unknown-chef rejection lives
in the submit-pizza request handler, which creates no Pizza row when the
chef does not exist. -/
theorem create_pizza_no_fk_check (chef_id : Nat) (db : DBState) :
    (create_pizza chef_id db).2.pizzas
      = db.pizzas ++ [⟨db.nextPizzaId, chef_id⟩] ∧
    (create_pizza chef_id db).1 = ⟨db.nextPizzaId, chef_id⟩ ∧
    (get_chef_by_id chef_id db = none →
      submit_pizza_create chef_id db = none) := by
  refine ⟨rfl, rfl, fun h => ?_⟩
  simp [submit_pizza_create, h]

/-- Witness for `create_pizza_no_fk_check` at `chef_id = 7` on `exDB`
(chef 7 does not exist). -/
theorem create_pizza_no_fk_check_witness :
    (create_pizza 7 exDB).2.pizzas = exDB.pizzas ++ [⟨1, 7⟩] ∧
    (create_pizza 7 exDB).1 = ⟨1, 7⟩ ∧
    submit_pizza_create 7 exDB = none := by
  have h := create_pizza_no_fk_check 7 exDB
  exact ⟨h.1, h.2.1, h.2.2 (by decide)⟩

/-- C3, counterexample: `create_chef` with the empty name does not fail
with a ValidationError — it returns a Chef row with name `""` and
persists it. -/
theorem create_chef_empty_name_succeeds :
    (create_chef "" none DBState.empty).1 = ⟨1, "", none⟩ ∧
    (create_chef "" none DBState.empty).2.chefs = [⟨1, "", none⟩] := by
  decide

/-- C3, amended: `create_chef` itself performs no name validation — for
every name, empty included, it persists and returns a Chef with exactly
that name; the empty-name rejection lives in the create-chef request
handler, which refuses an empty (or all-whitespace) name without
creating a row and, for a non-empty trimmed name, creates a Chef named
`name.strip()`. -/
theorem create_chef_validation_in_handler (name : String)
    (ip : Option String) (db : DBState) :
    ((create_chef name ip db).1.name = name ∧
      (create_chef name ip db).2.chefs
        = db.chefs ++ [⟨db.nextChefId, name, ip⟩]) ∧
    (pyStrip name = "" → create_chef_submit name ip db = none) ∧
    (pyStrip name ≠ "" →
      ∃ c db', create_chef_submit name ip db = some (c, db') ∧
        c.name = pyStrip name ∧
        db'.chefs = db.chefs ++ [⟨db.nextChefId, pyStrip name, ip⟩]) := by
  refine ⟨⟨rfl, rfl⟩, fun h => ?_, fun h => ?_⟩
  · simp [create_chef_submit, h]
  · refine ⟨(create_chef (pyStrip name) ip db).1,
      (create_chef (pyStrip name) ip db).2, ?_, rfl, rfl⟩
    simp [create_chef_submit, h]

/-- Witness for `create_chef_validation_in_handler` at the whitespace
name `"  "` on the empty database. -/
theorem create_chef_validation_in_handler_witness :
    ((create_chef "  " none DBState.empty).1.name = "  " ∧
      (create_chef "  " none DBState.empty).2.chefs
        = DBState.empty.chefs ++ [⟨1, "  ", none⟩]) ∧
    create_chef_submit "  " none DBState.empty = none := by
  have h := create_chef_validation_in_handler "  " none DBState.empty
  exact ⟨h.1, h.2.1 (by rfl)⟩

end Pizzatron

/-! ## AI gateway (src/ai.py) -/

namespace Pizzatron

/-- One observable event of `generate_chef_image`'s retry loop: a call
to the remote provider (numbered by attempt, starting at 0 as in
`range(max_retries)`) or a `time.sleep(delay)`. -/
inductive RetryEv where
  | call (attempt : Nat)
  | sleep (delay : Nat)
deriving Repr, DecidableEq

/-- The `for attempt in range(max_retries)` loop of `generate_chef_image`
(src/ai.py).  `oracle attempt` is the outcome of the remote
`client.images.edit` call on that attempt; `fuel` is the number of
attempts still allowed including the current one, so `fuel = 1` is
exactly the Python guard `attempt == max_retries - 1`.  Returns the
final outcome together with the trace of calls and sleeps.  The `fuel =
0` branch is unreachable from `generate_chef_image` (which starts with
fuel 3). -/
def retry_go (oracle : Nat → Except String α) :
    Nat → Nat → Nat → Except String α × List RetryEv
  | _, _, 0 => (.error "", [])
  | delay, attempt, fuel + 1 =>
    match oracle attempt with
    | .ok a => (.ok a, [.call attempt])
    | .error e =>
      if fuel = 0 then (.error e, [.call attempt])
      else
        let r := retry_go oracle (delay * 2) (attempt + 1) fuel
        (r.1, .call attempt :: .sleep delay :: r.2)

/-- `generate_chef_image` retry skeleton (src/ai.py): `max_retries = 3`,
`retry_delay = 2`, doubling after every failed non-final attempt.
(The best-effort image normalization before the loop does not affect the
retry behaviour and is elided; the oracle stands for the remote call.) -/
def generate_chef_image (oracle : Nat → Except String α) :
    Except String α × List RetryEv :=
  retry_go oracle 2 0 3

/-- C4: `generate_chef_image` makes at most 3 attempts.  If the remote
call fails twice and succeeds on the third attempt, it returns the
successful result and the trace is exactly call 0, sleep 2, call 1,
sleep 4, call 2 — each failure followed by a delay of 2 then 4 time
units, and no fourth call.  If the third attempt also fails, the same
trace occurs and the last failure is propagated. -/
theorem generate_chef_image_retry_policy (oracle : Nat → Except String α)
    (e0 e1 : String)
    (h0 : oracle 0 = .error e0) (h1 : oracle 1 = .error e1) :
    (∀ a, oracle 2 = .ok a →
      generate_chef_image oracle
        = (.ok a, [.call 0, .sleep 2, .call 1, .sleep 4, .call 2])) ∧
    (∀ e2, oracle 2 = .error e2 →
      generate_chef_image oracle
        = (.error e2, [.call 0, .sleep 2, .call 1, .sleep 4, .call 2])) := by
  constructor
  · intro a h2
    simp [generate_chef_image, retry_go, h0, h1, h2]
  · intro e2 h2
    simp [generate_chef_image, retry_go, h0, h1, h2]

/-- A concrete remote-call oracle: attempts 0 and 1 fail, attempt 2
succeeds. -/
def exOracle : Nat → Except String Nat :=
  fun n => if n = 2 then .ok 42 else .error "rate limited"

/-- Witness for `generate_chef_image_retry_policy` on `exOracle`. -/
theorem generate_chef_image_retry_policy_witness :
    generate_chef_image exOracle
      = (.ok 42, [.call 0, .sleep 2, .call 1, .sleep 4, .call 2]) :=
  (generate_chef_image_retry_policy exOracle "rate limited" "rate limited"
    rfl rfl).1 42 rfl

/-- Python dict assignment `d[k] = v` on an insertion-ordered
association list: replace in place if the key exists, else append. -/
def dictInsert (d : List (String × Int)) (k : String) (v : Int) :
    List (String × Int) :=
  if d.any (fun p => p.1 = k) then
    d.map (fun p => if p.1 = k then (k, v) else p)
  else d ++ [(k, v)]

/-- The dict comprehension `{cat_name: 0 for cat_name in category_names}`
(src/ai.py, degenerate branch of `review_pizza_images`). -/
def dictOfZeros (names : List String) : List (String × Int) :=
  names.foldl (fun d n => dictInsert d n 0) []

/-- The return shape of `review_pizza_images`:
`{"review_summary": ..., "scores": {...}}`. -/
structure ReviewResult where
  review_summary : String
  scores : List (String × Int)
deriving Repr, DecidableEq

/-- `review_pizza_images` (src/ai.py), skeleton relevant to the
degenerate path.  `resolved` is the outcome of reading each entry of
`pizza_image_paths` from disk (`none` = the `open` failed and the path
was skipped with a warning); `remote` stands for the parsed outcome of
the single `client.chat.completions.create` call.  The returned `Bool`
records whether the remote provider was called. -/
def review_pizza_images (db : DBState) (resolved : List (Option String))
    (remote : Except String ReviewResult) :
    Except String ReviewResult × Bool :=
  let category_names := db.review_categories.map (fun c => c.name)
  let image_parts := resolved.filterMap id
  if image_parts.isEmpty then
    (.ok ⟨"No images supplied for review.", dictOfZeros category_names⟩,
      false)
  else
    (remote, true)

/-- Membership in `dictInsert`: every entry is the inserted pair or an
entry of the original dict. -/
theorem mem_dictInsert {d : List (String × Int)} {k : String} {v : Int}
    {p : String × Int} (hp : p ∈ dictInsert d k v) :
    p = (k, v) ∨ p ∈ d := by
  unfold dictInsert at hp
  split at hp
  · rcases List.mem_map.mp hp with ⟨q, hq, hpq⟩
    by_cases h : q.1 = k
    · simp [h] at hpq
      exact Or.inl hpq.symm
    · simp [h] at hpq
      exact Or.inr (hpq ▸ hq)
  · rcases List.mem_append.mp hp with h | h
    · exact Or.inr h
    · simp at h
      exact Or.inl h

/-- `dictInsert` keeps every existing key and adds the inserted key. -/
theorem keys_dictInsert {d : List (String × Int)} {k : String} {v : Int} :
    k ∈ (dictInsert d k v).map Prod.fst ∧
    ∀ k' ∈ d.map Prod.fst, k' ∈ (dictInsert d k v).map Prod.fst := by
  constructor
  · unfold dictInsert
    split
    · next h =>
      rcases List.any_eq_true.mp h with ⟨q, hq, hqk⟩
      refine List.mem_map.mpr ⟨(k, v), ?_, rfl⟩
      refine List.mem_map.mpr ⟨q, hq, ?_⟩
      simp at hqk
      simp [hqk]
    · simp
  · intro k' hk'
    rcases List.mem_map.mp hk' with ⟨q, hq, hqk⟩
    unfold dictInsert
    split
    · by_cases h : q.1 = k
      · refine List.mem_map.mpr ⟨(k, v), List.mem_map.mpr ⟨q, hq, by simp [h]⟩, ?_⟩
        simp [← hqk, h]
      · exact List.mem_map.mpr ⟨q, List.mem_map.mpr ⟨q, hq, by simp [h]⟩, hqk⟩
    · exact List.mem_map.mpr ⟨q, List.mem_append_left _ hq, hqk⟩

/-- Every entry of `dictOfZeros names` has value 0 and a key from
`names` (generalized over the fold's accumulator). -/
theorem mem_foldl_dictZero {names : List String}
    {d : List (String × Int)} {p : String × Int}
    (hp : p ∈ names.foldl (fun d n => dictInsert d n 0) d) :
    p ∈ d ∨ (p.2 = 0 ∧ p.1 ∈ names) := by
  induction names generalizing d with
  | nil => exact Or.inl hp
  | cons n ns ih =>
    rcases ih hp with h | h
    · rcases mem_dictInsert h with h' | h'
      · exact Or.inr ⟨by simp [h'], by simp [h']⟩
      · exact Or.inl h'
    · exact Or.inr ⟨h.1, List.mem_cons_of_mem _ h.2⟩

/-- The fold underlying `dictOfZeros` keeps existing keys. -/
theorem keys_foldl_dictZero_mono {names : List String}
    {d : List (String × Int)} {k : String}
    (hk : k ∈ d.map Prod.fst) :
    k ∈ (names.foldl (fun d n => dictInsert d n 0) d).map Prod.fst := by
  induction names generalizing d with
  | nil => exact hk
  | cons n ns ih => exact ih (keys_dictInsert.2 k hk)

/-- Every name of `names` occurs as a key of `dictOfZeros names`
(generalized over the accumulator). -/
theorem keys_foldl_dictZero {names : List String}
    {d : List (String × Int)} {k : String} (hk : k ∈ names) :
    k ∈ (names.foldl (fun d n => dictInsert d n 0) d).map Prod.fst := by
  induction names generalizing d with
  | nil => cases hk
  | cons n ns ih =>
    rcases List.mem_cons.mp hk with h | h
    · subst h
      exact @keys_foldl_dictZero_mono ns (dictInsert d k 0) k
        (@keys_dictInsert d k 0).1
    · exact ih h

/-- C5: whenever zero images resolve successfully (in particular for the
empty path list), `review_pizza_images` returns exactly the sentinel
summary `"No images supplied for review."` together with the dict
mapping every known category name to 0, and the remote provider is not
called. -/
theorem review_no_images_sentinel (db : DBState)
    (resolved : List (Option String)) (remote : Except String ReviewResult)
    (h : resolved.filterMap id = []) :
    review_pizza_images db resolved remote
      = (.ok ⟨"No images supplied for review.",
              dictOfZeros (db.review_categories.map (fun c => c.name))⟩,
          false) ∧
    (∀ c ∈ db.review_categories,
      c.name ∈ (dictOfZeros (db.review_categories.map (fun c => c.name))).map
        Prod.fst) ∧
    (∀ p ∈ dictOfZeros (db.review_categories.map (fun c => c.name)),
      p.2 = 0 ∧ p.1 ∈ db.review_categories.map (fun c => c.name)) := by
  refine ⟨?_, ?_, ?_⟩
  · simp [review_pizza_images, h]
  · intro c hc
    exact keys_foldl_dictZero (List.mem_map.mpr ⟨c, hc, rfl⟩)
  · intro p hp
    rcases mem_foldl_dictZero hp with h' | h'
    · cases h'
    · exact h'

/-- Witness for `review_no_images_sentinel`: two unreadable image paths
against the seeded category vocabulary. -/
theorem review_no_images_sentinel_witness :
    review_pizza_images exDB [none, none] (.error "unused")
      = (.ok ⟨"No images supplied for review.",
              [("Shape", 0), ("Crust Quality", 0), ("Presentation", 0),
               ("Bake Quality", 0), ("Flavor (estimated)", 0),
               ("Overall", 0)]⟩,
          false) := by
  have h := review_no_images_sentinel exDB [none, none] (.error "unused")
    (by decide)
  rw [h.1]
  rfl

end Pizzatron

/-! ## Background review persistence (src/app.py,
`process_pizza_review_background`) -/

namespace Pizzatron

/-- The dict comprehension `{cat.name: cat.id for cat in categories}`
(src/app.py line 426): a later category with the same name overwrites an
earlier one, so lookup returns the id of the last category carrying the
name. -/
def category_map (cats : List ReviewCategory) (name : String) :
    Option Nat :=
  (cats.reverse.find? (fun c => c.name = name)).map (fun c => c.id)

/-- The score-saving loop of `process_pizza_review_background`
(src/app.py lines 429-436): one `PizzaReviewScore` per entry of the
`scores` dict whose key is in `category_map`, unknown keys skipped;
`firstId` is the autoincrement id given to the first created row. -/
def review_score_rows (review_id firstId : Nat)
    (cats : List ReviewCategory) (scores : List (String × Int)) :
    List PizzaReviewScore :=
  match scores with
  | [] => []
  | (n, v) :: rest =>
    match category_map cats n with
    | some cid =>
        ⟨firstId, review_id, cid, v⟩ ::
          review_score_rows review_id (firstId + 1) cats rest
    | none => review_score_rows review_id firstId cats rest

/-- The first transaction of `process_pizza_review_background`: build
the `PizzaReview` row, `session.commit()`, `session.refresh` to obtain
its id. -/
def commit_review (pizza_id : Nat) (summary : String) (db : DBState) :
    PizzaReview × DBState :=
  let r : PizzaReview := ⟨db.nextReviewId, pizza_id, summary⟩
  (r, { db with pizza_review := db.pizza_review ++ [r],
                nextReviewId := db.nextReviewId + 1 })

/-- The second transaction of `process_pizza_review_background`: add all
matching score rows, then `session.commit()`. -/
def commit_scores (review_id : Nat) (scores : List (String × Int))
    (db : DBState) : DBState :=
  let rows :=
    review_score_rows review_id db.nextScoreId db.review_categories scores
  { db with pizza_review_scores := db.pizza_review_scores ++ rows,
            nextScoreId := db.nextScoreId + rows.length }

/-- Where, if anywhere, the database write of
`process_pizza_review_background` fails.  On failure the `except` branch
runs `session.rollback()`, which discards only the rows added since the
last successful commit. -/
inductive DbFailure where
  | noFailure
  | duringReviewCommit
  | duringScoresCommit
deriving Repr, DecidableEq

/-- The database section of `process_pizza_review_background`
(src/app.py lines 413-445): a first commit persisting the `PizzaReview`
alone, then a second commit persisting the score rows.  A failure in the
first commit rolls back to the initial state; a failure in the score
phase rolls back only the pending score rows — the already-committed
review survives. -/
def process_pizza_review_db (pizza_id : Nat) (summary : String)
    (scores : List (String × Int)) (failure : DbFailure)
    (db : DBState) : DBState :=
  match failure with
  | .duringReviewCommit => db
  | .duringScoresCommit => (commit_review pizza_id summary db).2
  | .noFailure =>
      let r := commit_review pizza_id summary db
      commit_scores r.1.id scores r.2

/-- The review-persist success path (`record_review` in the spec's
vocabulary). -/
def record_review (pizza_id : Nat) (summary : String)
    (scores : List (String × Int)) (db : DBState) : DBState :=
  process_pizza_review_db pizza_id summary scores .noFailure db

/-- `exDB` with one pizza (id 1, chef 1). -/
def exDBP : DBState := (create_pizza 1 exDB).2

/-- A concrete review result over known categories. -/
def exScores : List (String × Int) := [("Shape", 5), ("Overall", 3)]

/-- C1, counterexample: recording a review is not atomic.  On a concrete
database with pizza 1 and a non-empty score mapping, a failure during
the score-writing phase leaves the `PizzaReview` row persisted with zero
`PizzaReviewScore` rows — a partially-written review survives. -/
theorem review_persist_partial_survives :
    exScores ≠ [] ∧
    (∃ r ∈ (process_pizza_review_db 1 "Good" exScores
        .duringScoresCommit exDBP).pizza_review,
      r.pizza_id = 1 ∧ r.review_summary = "Good") ∧
    (process_pizza_review_db 1 "Good" exScores
        .duringScoresCommit exDBP).pizza_review_scores = [] := by
  decide

/-- C1, amended: the review insert and the score inserts are committed
in two separate transactions.  A failure during the first (review)
commit leaves the store unchanged; a failure during the score-writing
phase leaves the committed `PizzaReview` row in place with none of its
score rows; only when both commits succeed is the complete
review-plus-scores set persisted. -/
theorem review_persist_two_transactions (pizza_id : Nat)
    (summary : String) (scores : List (String × Int)) (db : DBState) :
    process_pizza_review_db pizza_id summary scores
        .duringReviewCommit db = db ∧
    ((process_pizza_review_db pizza_id summary scores
        .duringScoresCommit db).pizza_review
      = db.pizza_review ++ [⟨db.nextReviewId, pizza_id, summary⟩] ∧
     (process_pizza_review_db pizza_id summary scores
        .duringScoresCommit db).pizza_review_scores
      = db.pizza_review_scores) ∧
    ((record_review pizza_id summary scores db).pizza_review
      = db.pizza_review ++ [⟨db.nextReviewId, pizza_id, summary⟩] ∧
     (record_review pizza_id summary scores db).pizza_review_scores
      = db.pizza_review_scores ++
          review_score_rows db.nextReviewId db.nextScoreId
            db.review_categories scores) := by
  exact ⟨rfl, ⟨rfl, rfl⟩, ⟨rfl, rfl⟩⟩

end Pizzatron

/-! ### Properties of the score-saving loop (claims C7, C10) -/

namespace Pizzatron

/-- A successful `category_map` lookup names an actual category row. -/
theorem category_map_some {cats : List ReviewCategory} {n : String}
    {cid : Nat} (h : category_map cats n = some cid) :
    ∃ c ∈ cats, c.name = n ∧ c.id = cid := by
  unfold category_map at h
  rcases Option.map_eq_some'.mp h with ⟨c, hc, hcid⟩
  exact ⟨c, List.mem_reverse.mp (List.mem_of_find?_eq_some hc),
    by simpa using List.find?_some hc, hcid⟩

/-- A category with name `n` makes `category_map` succeed on `n`. -/
theorem category_map_isSome_of_mem {cats : List ReviewCategory}
    {c : ReviewCategory} (hc : c ∈ cats) :
    (category_map cats c.name).isSome := by
  rcases hf : cats.reverse.find? (fun d => d.name = c.name) with _ | d
  · rw [List.find?_eq_none] at hf
    exact absurd (by simp) (hf c (List.mem_reverse.mpr hc))
  · simp [category_map, hf]

/-- With pairwise distinct category ids, two names resolving to the same
category id are equal. -/
theorem category_map_inj {cats : List ReviewCategory}
    (hids : (cats.map (fun c => c.id)).Nodup) {x y : String} {cid : Nat}
    (hx : category_map cats x = some cid)
    (hy : category_map cats y = some cid) : x = y := by
  obtain ⟨c, hc, hcn, hci⟩ := category_map_some hx
  obtain ⟨d, hd, hdn, hdi⟩ := category_map_some hy
  have hcd : c = d :=
    List.inj_on_of_nodup_map hids hc hd (by rw [hci, hdi])
  rw [← hcn, ← hdn, hcd]

/-- Each row the score loop creates records the given review id, and its
category id and score come from a `scores` entry whose key resolved. -/
theorem mem_review_score_rows {rid fid : Nat}
    {cats : List ReviewCategory} {scores : List (String × Int)}
    {r : PizzaReviewScore}
    (hr : r ∈ review_score_rows rid fid cats scores) :
    r.pizza_review_id = rid ∧
    ∃ p ∈ scores, category_map cats p.1 = some r.category_id ∧
      r.score = p.2 := by
  induction scores generalizing fid with
  | nil => cases hr
  | cons q rest ih =>
    unfold review_score_rows at hr
    obtain ⟨n, v⟩ := q
    rcases hcm : category_map cats n with _ | cid
    · rw [hcm] at hr
      obtain ⟨h1, p, hp, hp2⟩ := ih hr
      exact ⟨h1, p, List.mem_cons_of_mem _ hp, hp2⟩
    · rw [hcm] at hr
      rcases List.mem_cons.mp hr with h | h
      · subst h
        exact ⟨rfl, (n, v), List.mem_cons_self _ _, hcm, rfl⟩
      · obtain ⟨h1, p, hp, hp2⟩ := ih h
        exact ⟨h1, p, List.mem_cons_of_mem _ hp, hp2⟩

/-- Every `scores` entry whose key resolves to a category id yields a
created row with exactly that category id and that score. -/
theorem review_score_rows_complete {rid fid : Nat}
    {cats : List ReviewCategory} {scores : List (String × Int)}
    {n : String} {v : Int} {cid : Nat} (hmem : (n, v) ∈ scores)
    (hcid : category_map cats n = some cid) :
    ∃ r ∈ review_score_rows rid fid cats scores,
      r.category_id = cid ∧ r.score = v ∧ r.pizza_review_id = rid := by
  induction scores generalizing fid with
  | nil => cases hmem
  | cons q rest ih =>
    rcases List.mem_cons.mp hmem with h | h
    · subst h
      refine ⟨⟨fid, rid, cid, v⟩, ?_, rfl, rfl, rfl⟩
      unfold review_score_rows
      rw [hcid]
      exact List.mem_cons_self _ _
    · obtain ⟨r, hr, hrprops⟩ := @ih (fid + 1) h
      obtain ⟨r', hr', hrprops'⟩ := @ih fid h
      obtain ⟨n', v'⟩ := q
      unfold review_score_rows
      rcases hcm : category_map cats n' with _ | cid'
      · exact ⟨r', hr', hrprops'⟩
      · exact ⟨r, List.mem_cons_of_mem _ hr, hrprops⟩

/-- Per category id, the loop creates as many rows as there are `scores`
entries resolving to that id. -/
theorem review_score_rows_countP (rid fid : Nat)
    (cats : List ReviewCategory) (scores : List (String × Int))
    (cid : Nat) :
    (review_score_rows rid fid cats scores).countP
        (fun r => r.category_id == cid)
      = scores.countP (fun p => category_map cats p.1 == some cid) := by
  induction scores generalizing fid with
  | nil => rfl
  | cons q rest ih =>
    obtain ⟨n, v⟩ := q
    unfold review_score_rows
    rcases hcm : category_map cats n with _ | cid'
    · rw [List.countP_cons]
      simp [hcm, ih]
    · rw [List.countP_cons, List.countP_cons]
      simp only [hcm, ih]
      rfl

/-- The loop creates one row per `scores` entry with a known key. -/
theorem review_score_rows_length (rid fid : Nat)
    (cats : List ReviewCategory) (scores : List (String × Int)) :
    (review_score_rows rid fid cats scores).length
      = scores.countP (fun p => (category_map cats p.1).isSome) := by
  induction scores generalizing fid with
  | nil => rfl
  | cons q rest ih =>
    obtain ⟨n, v⟩ := q
    unfold review_score_rows
    rcases hcm : category_map cats n with _ | cid'
    · rw [List.countP_cons]
      simp [hcm, ih]
    · rw [List.countP_cons]
      simp [hcm, ih]

end Pizzatron

namespace Pizzatron

/-- C7: when a review is recorded, the score-saving loop creates exactly
one `PizzaReviewScore` row for each entry of the scores mapping whose
category name matches a known `ReviewCategory` (carrying that entry's
score), and every non-matching name is silently ignored — the created
rows number exactly the matching entries, and the loop is a total
function, so no failure occurs. -/
theorem record_review_scores_exact (pizza_id : Nat) (summary : String)
    (scores : List (String × Int)) (db : DBState)
    (hkeys : (scores.map Prod.fst).Nodup)
    (hids : (db.review_categories.map (fun c => c.id)).Nodup) :
    (record_review pizza_id summary scores db).pizza_review_scores
      = db.pizza_review_scores ++
          review_score_rows db.nextReviewId db.nextScoreId
            db.review_categories scores ∧
    (∀ p ∈ scores, ∀ cid,
      category_map db.review_categories p.1 = some cid →
      (review_score_rows db.nextReviewId db.nextScoreId
          db.review_categories scores).countP
          (fun r => r.category_id == cid) = 1 ∧
      (∀ r ∈ review_score_rows db.nextReviewId db.nextScoreId
          db.review_categories scores,
        r.category_id = cid → r.score = p.2)) ∧
    (review_score_rows db.nextReviewId db.nextScoreId
        db.review_categories scores).length
      = scores.countP
          (fun p => (category_map db.review_categories p.1).isSome) := by
  refine ⟨rfl, ?_, review_score_rows_length _ _ _ _⟩
  intro p hp cid hcid
  constructor
  · rw [review_score_rows_countP]
    have h1 : scores.countP
          (fun q => category_map db.review_categories q.1 == some cid)
        = scores.countP (fun q => q.1 == p.1) := by
      apply List.countP_congr
      intro q hq
      simp only [beq_iff_eq]
      constructor
      · intro h
        exact category_map_inj hids h hcid
      · intro h
        rw [h]
        exact hcid
    have h2 : scores.countP (fun q => q.1 == p.1)
        = (scores.map Prod.fst).count p.1 := by
      rw [List.count_eq_countP, List.countP_map]
      rfl
    rw [h1, h2]
    exact List.count_eq_one_of_mem hkeys (List.mem_map.mpr ⟨p, hp, rfl⟩)
  · intro r hr hrc
    obtain ⟨_, q, hq, hqc, hqs⟩ := mem_review_score_rows hr
    rw [hrc] at hqc
    have hq1 : q.1 = p.1 := category_map_inj hids hqc hcid
    have hqp : q = p := List.inj_on_of_nodup_map hkeys hq hp hq1
    rw [hqs, hqp]

/-- A scores mapping with one known and one unknown category name. -/
def exScoresU : List (String × Int) := [("Shape", 5), ("Banana", 4)]

/-- Witness for `record_review_scores_exact` on `exDBP` and
`exScoresU`: `"Shape"` yields exactly one row with score 5, the unknown
name `"Banana"` yields none. -/
theorem record_review_scores_exact_witness :
    ((exScoresU.map Prod.fst).Nodup ∧
      (exDBP.review_categories.map (fun c => c.id)).Nodup) ∧
    (record_review 1 "Good" exScoresU exDBP).pizza_review_scores
      = exDBP.pizza_review_scores ++
          review_score_rows exDBP.nextReviewId exDBP.nextScoreId
            exDBP.review_categories exScoresU ∧
    (review_score_rows exDBP.nextReviewId exDBP.nextScoreId
        exDBP.review_categories exScoresU).countP
        (fun r => r.category_id == 1) = 1 ∧
    (review_score_rows exDBP.nextReviewId exDBP.nextScoreId
        exDBP.review_categories exScoresU).length = 1 := by
  have h := record_review_scores_exact 1 "Good" exScoresU exDBP
    (by decide) (by decide)
  refine ⟨⟨by decide, by decide⟩, h.1, ?_, ?_⟩
  · exact (h.2.1 ("Shape", 5) (by decide) 1 (by decide)).1
  · rw [h.2.2]
    decide

/-- C10: the review persist path performs no range validation on
scores — for every integer `s` (0, negative, or above 5 included)
mapped to a known category name, a `PizzaReviewScore` row holding
exactly `s` is persisted, an ordinary row of the same shape as any
other. -/
theorem review_score_no_range_validation (pizza_id : Nat)
    (summary : String) (scores : List (String × Int)) (db : DBState)
    (n : String) (s : Int) (cid : Nat)
    (hmem : (n, s) ∈ scores)
    (hcid : category_map db.review_categories n = some cid) :
    ∃ r ∈ (record_review pizza_id summary scores db).pizza_review_scores,
      r.category_id = cid ∧ r.score = s ∧
      r.pizza_review_id = db.nextReviewId := by
  obtain ⟨r, hr, h1, h2, h3⟩ :=
    @review_score_rows_complete db.nextReviewId db.nextScoreId
      db.review_categories scores n s cid hmem hcid
  exact ⟨r, List.mem_append_right _ hr, h1, h2, h3⟩

/-- Witness for `review_score_no_range_validation`: the out-of-range
sentinel 0 for `"Shape"` is persisted as an ordinary score row. -/
theorem review_score_no_range_validation_witness :
    (("Shape", (0 : Int)) ∈ [("Shape", (0 : Int))] ∧
      category_map exDBP.review_categories "Shape" = some 1) ∧
    ∃ r ∈ (record_review 1 "Degenerate" [("Shape", (0 : Int))]
        exDBP).pizza_review_scores,
      r.category_id = 1 ∧ r.score = 0 ∧
      r.pizza_review_id = exDBP.nextReviewId := by
  refine ⟨⟨by decide, by decide⟩, ?_⟩
  exact review_score_no_range_validation 1 "Degenerate"
    [("Shape", (0 : Int))] exDBP "Shape" 0 1 (by decide) (by decide)

end Pizzatron

/-! ## Eager-fetch read path and round-trip (claim C9) -/

namespace Pizzatron

/-- One element of a fetched review's `scores` collection, with its
`category` relationship resolved (`joinedload(PizzaReviewScore.category)`). -/
structure ScoreRow where
  score : Int
  category : Option ReviewCategory
deriving Repr, DecidableEq

/-- The object graph returned by
`DatabaseManager.get_pizza_with_images`: the pizza with its `images`
collection and its (at most one — `uselist=False`) `review`, the
review's `scores` each with their `category`. -/
structure PizzaDetail where
  pizza : Pizza
  images : List PizzaImage
  review : Option (PizzaReview × List ScoreRow)
deriving Repr, DecidableEq

/-- `DatabaseManager.get_pizza_with_images(pizza_id)` (src/db.py):
`query(Pizza).options(joinedload images, joinedload review →  scores →
category).filter(Pizza.id == pizza_id).first()`. -/
def get_pizza_with_images (pizza_id : Nat) (db : DBState) :
    Option PizzaDetail :=
  (db.pizzas.find? (fun p => p.id = pizza_id)).map (fun p =>
    { pizza := p
      images := db.pizza_images.filter (fun i => i.pizza_id = p.id)
      review :=
        (db.pizza_review.find? (fun r => r.pizza_id = p.id)).map (fun r =>
          (r, (db.pizza_review_scores.filter
                (fun s => s.pizza_review_id = r.id)).map (fun s =>
            ⟨s.score,
             db.review_categories.find? (fun c => c.id = s.category_id)⟩))) })

/-- Looking a resolved category id back up by id recovers the category
with the originally looked-up name (given pairwise distinct ids). -/
theorem find?_cat_by_id {cats : List ReviewCategory}
    (hids : (cats.map (fun c => c.id)).Nodup) {n : String} {cid : Nat}
    (h : category_map cats n = some cid) :
    ∃ c, cats.find? (fun c => c.id = cid) = some c ∧ c.name = n := by
  obtain ⟨c0, hc0, hc0n, hc0i⟩ := category_map_some h
  rcases hf : cats.find? (fun c => c.id = cid) with _ | c
  · rw [List.find?_eq_none] at hf
    exact absurd (by simp [hc0i]) (hf c0 hc0)
  · have hcmem : c ∈ cats := List.mem_of_find?_eq_some hf
    have hcid : c.id = cid := by simpa using List.find?_some hf
    have : c = c0 :=
      List.inj_on_of_nodup_map hids hcmem hc0 (by rw [hcid, hc0i])
    exact ⟨c, hf, by rw [this, hc0n]⟩

/-- C9, round-trip: writing a review with a summary and a per-category
score mapping over known categories, then reading the pizza back via the
eager-fetch read path, yields the same summary and, for each written
category name, an entry with exactly the written score (and no entry
with that category name and a different score). -/
theorem review_round_trip (pizza_id : Nat) (summary : String)
    (scores : List (String × Int)) (db : DBState)
    (hpz : (db.pizzas.find? (fun p => p.id = pizza_id)).isSome)
    (hnorev : ∀ r ∈ db.pizza_review, r.pizza_id ≠ pizza_id)
    (hfresh : ∀ s ∈ db.pizza_review_scores,
      s.pizza_review_id ≠ db.nextReviewId)
    (hids : (db.review_categories.map (fun c => c.id)).Nodup)
    (hkeys : (scores.map Prod.fst).Nodup)
    (hknown : ∀ p ∈ scores,
      (category_map db.review_categories p.1).isSome) :
    ∃ d, get_pizza_with_images pizza_id
        (record_review pizza_id summary scores db) = some d ∧
      ∃ rv scs, d.review = some (rv, scs) ∧
        rv.review_summary = summary ∧
        ∀ p ∈ scores,
          (∃ sc ∈ scs,
            (∃ c, sc.category = some c ∧ c.name = p.1) ∧ sc.score = p.2) ∧
          (∀ sc ∈ scs,
            (∃ c, sc.category = some c ∧ c.name = p.1) → sc.score = p.2) := by
  obtain ⟨p, hp⟩ := Option.isSome_iff_exists.mp hpz
  have hpid : p.id = pizza_id := by simpa using List.find?_some hp
  set st := record_review pizza_id summary scores db with hst
  set newRev : PizzaReview := ⟨db.nextReviewId, pizza_id, summary⟩
    with hnewRev
  set newRows := review_score_rows db.nextReviewId db.nextScoreId
    db.review_categories scores with hnewRows
  have hstpz : st.pizzas = db.pizzas := rfl
  have hstrev : st.pizza_review = db.pizza_review ++ [newRev] := rfl
  have hstsc : st.pizza_review_scores
      = db.pizza_review_scores ++ newRows := rfl
  have hfind : st.pizzas.find? (fun q => q.id = pizza_id) = some p := by
    rw [hstpz, hp]
  have hrevfind : st.pizza_review.find? (fun r => r.pizza_id = p.id)
      = some newRev := by
    rw [hstrev, List.find?_append]
    have hnone : db.pizza_review.find? (fun r => r.pizza_id = p.id)
        = none := by
      rw [List.find?_eq_none]
      intro r hr
      simp [hpid, hnorev r hr]
    rw [hnone]
    simp [hnewRev, hpid]
  have hfilter : st.pizza_review_scores.filter
      (fun s => s.pizza_review_id = newRev.id) = newRows := by
    rw [hstsc, List.filter_append]
    have h1 : db.pizza_review_scores.filter
        (fun s => s.pizza_review_id = newRev.id) = [] := by
      simp only [List.filter_eq_nil_iff]
      intro s hs
      simp [hnewRev, hfresh s hs]
    have h2 : newRows.filter (fun s => s.pizza_review_id = newRev.id)
        = newRows := by
      rw [List.filter_eq_self]
      intro s hs
      have := (mem_review_score_rows hs).1
      simp [hnewRev, this]
    rw [h1, h2, List.nil_append]
  refine ⟨_, by rw [get_pizza_with_images, hfind, Option.map_some'], ?_⟩
  refine ⟨newRev,
    (st.pizza_review_scores.filter
      (fun s => s.pizza_review_id = newRev.id)).map (fun s =>
        ⟨s.score,
         st.review_categories.find? (fun c => c.id = s.category_id)⟩),
    by rw [hrevfind, Option.map_some'], rfl, ?_⟩
  intro q hq
  obtain ⟨cid, hcid⟩ :=
    Option.isSome_iff_exists.mp (hknown q hq)
  have hstcats : st.review_categories = db.review_categories := rfl
  constructor
  · obtain ⟨r, hr, hr1, hr2, hr3⟩ :=
      @review_score_rows_complete db.nextReviewId db.nextScoreId
        db.review_categories scores q.1 q.2 cid hq hcid
    obtain ⟨c, hc, hcn⟩ := find?_cat_by_id hids hcid
    refine ⟨⟨r.score,
      st.review_categories.find? (fun c => c.id = r.category_id)⟩,
      List.mem_map.mpr ⟨r, ?_, rfl⟩, ⟨c, ?_, hcn⟩, hr2⟩
    · rw [hfilter]
      exact hr
    · rw [hstcats, hr1, hc]
  · intro sc hsc hc
    obtain ⟨c, hcfind, hcname⟩ := hc
    obtain ⟨s, hs, hsc_eq⟩ := List.mem_map.mp hsc
    rw [hfilter] at hs
    obtain ⟨_, q', hq', hq'c, hq's⟩ := mem_review_score_rows hs
    obtain ⟨c', hc'find, hc'name⟩ := find?_cat_by_id hids hq'c
    have hcc' : c = c' := by
      rw [← hsc_eq] at hcfind
      simp only [hstcats] at hcfind
      rw [hcfind] at hc'find
      exact Option.some_inj.mp hc'find
    have hq'1 : q'.1 = q.1 := by
      rw [← hc'name, ← hcc', hcname]
    have hq'q : q' = q := List.inj_on_of_nodup_map hkeys hq' hq hq'1
    rw [← hsc_eq]
    simp only []
    rw [hq's, hq'q]

end Pizzatron

namespace Pizzatron

/-- Witness for `review_round_trip`: write the review `"Good"` with
`{Shape: 5, Overall: 3}` to pizza 1 of `exDBP` and read it back. -/
theorem review_round_trip_witness :
    ((exDBP.pizzas.find? (fun p => p.id = 1)).isSome ∧
      (∀ r ∈ exDBP.pizza_review, r.pizza_id ≠ 1) ∧
      (∀ s ∈ exDBP.pizza_review_scores,
        s.pizza_review_id ≠ exDBP.nextReviewId) ∧
      (exDBP.review_categories.map (fun c => c.id)).Nodup ∧
      (exScores.map Prod.fst).Nodup ∧
      (∀ p ∈ exScores,
        (category_map exDBP.review_categories p.1).isSome)) ∧
    (∃ d, get_pizza_with_images 1
        (record_review 1 "Good" exScores exDBP) = some d ∧
      ∃ rv scs, d.review = some (rv, scs) ∧
        rv.review_summary = "Good" ∧
        ∀ p ∈ exScores,
          (∃ sc ∈ scs,
            (∃ c, sc.category = some c ∧ c.name = p.1) ∧ sc.score = p.2) ∧
          (∀ sc ∈ scs,
            (∃ c, sc.category = some c ∧ c.name = p.1) →
              sc.score = p.2)) := by
  refine ⟨⟨by decide, by decide, by decide, by decide, by decide,
    by decide⟩, ?_⟩
  exact review_round_trip 1 "Good" exScores exDBP (by decide) (by decide)
    (by decide) (by decide) (by decide) (by decide)

end Pizzatron

/-! ## Leaderboard aggregate query (src/app.py, `leaderboard`,
claim C6) -/

namespace Pizzatron

/-- The inner join
`Pizza JOIN PizzaReview ON Pizza.id = PizzaReview.pizza_id
JOIN PizzaReviewScore ON PizzaReview.id = PizzaReviewScore.pizza_review_id`
of the leaderboard query: one `(pizza id, score)` row per matching
triple. -/
def joined_score_rows (db : DBState) : List (Nat × Int) :=
  db.pizzas.flatMap (fun p =>
    (db.pizza_review.filter (fun r => r.pizza_id = p.id)).flatMap (fun r =>
      (db.pizza_review_scores.filter
        (fun s => s.pizza_review_id = r.id)).map (fun s =>
          (p.id, s.score))))

/-- One `GROUP BY` group of the leaderboard query: pizza id, sum of its
joined scores, and their count — the count is positive because an inner
join only produces a group from at least one score row.  The group's
`avg(score)` is `groupAvg`. -/
abbrev PGroup := Nat × Int × ℕ+

/-- `GROUP BY Pizza.id`: one group per pizza that has at least one
joined score row; pizzas with no review or no scores produce no group
(inner-join semantics, no zero-fill). -/
def pizza_groups (db : DBState) : List PGroup :=
  db.pizzas.filterMap (fun p =>
    if h : ((joined_score_rows db).filter (fun q => q.1 = p.id)).length = 0
    then none
    else some (p.id,
      (((joined_score_rows db).filter
          (fun q => q.1 = p.id)).map (fun q => q.2)).sum,
      ⟨((joined_score_rows db).filter (fun q => q.1 = p.id)).length,
        Nat.pos_of_ne_zero h⟩))

/-- The arithmetic mean `avg(PizzaReviewScore.score)` of a group. -/
def groupAvg (g : PGroup) : ℚ :=
  (g.2.1 : ℚ) / ((g.2.2 : ℕ) : ℚ)

/-- The `ORDER BY avg(score) DESC` comparison, in cross-multiplied
integer form so that it is kernel-computable: `groupGE a b` holds
exactly when `groupAvg b ≤ groupAvg a` (`groupGE_iff_avg_le`). -/
def groupGE (a b : PGroup) : Prop :=
  b.2.1 * ((a.2.2 : ℕ) : Int) ≤ a.2.1 * ((b.2.2 : ℕ) : Int)

instance : DecidableRel groupGE :=
  fun _ _ => inferInstanceAs (Decidable (_ ≤ _))

instance : IsTotal PGroup groupGE :=
  ⟨fun a b =>
    le_total (b.2.1 * ((a.2.2 : ℕ) : Int)) (a.2.1 * ((b.2.2 : ℕ) : Int))⟩

/-- The cross-multiplied comparison is exactly "mean of `a` is at least
mean of `b`". -/
theorem groupGE_iff_avg_le (a b : PGroup) :
    groupGE a b ↔ groupAvg b ≤ groupAvg a := by
  unfold groupGE groupAvg
  have ha' : (0 : ℚ) < ((a.2.2 : ℕ) : ℚ) := by exact_mod_cast a.2.2.pos
  have hb' : (0 : ℚ) < ((b.2.2 : ℕ) : ℚ) := by exact_mod_cast b.2.2.pos
  rw [div_le_div_iff₀ hb' ha']
  constructor
  · intro h
    exact_mod_cast h
  · intro h
    exact_mod_cast h

instance : IsTrans PGroup groupGE :=
  ⟨fun a b c hab hbc => (groupGE_iff_avg_le a c).mpr
    (le_trans ((groupGE_iff_avg_le b c).mp hbc)
      ((groupGE_iff_avg_le a b).mp hab))⟩

/-- The leaderboard query (src/app.py lines 495-507) with the
`.limit(...)` argument explicit: group, order descending by mean,
truncate. -/
def leaderboard_query (lim : Nat) (db : DBState) : List PGroup :=
  ((pizza_groups db).insertionSort groupGE).take lim

/-- The `/leaderboard` endpoint hardcodes `.limit(10)`. -/
def leaderboard (db : DBState) : List PGroup :=
  leaderboard_query 10 db

end Pizzatron

namespace Pizzatron

/-- C6, amended: for every state and every limit, the leaderboard query
returns at most `lim` entries (the endpoint instantiates `lim = 10`),
ordered non-increasingly — weakly, not strictly, descending — by the
arithmetic mean of each pizza's recorded scores, and never containing a
pizza with no review or zero recorded scores. -/
theorem leaderboard_query_spec (lim : Nat) (db : DBState) :
    (leaderboard_query lim db).length ≤ lim ∧
    (leaderboard_query lim db).Pairwise
      (fun a b => groupAvg b ≤ groupAvg a) ∧
    (∀ g ∈ leaderboard_query lim db,
      ∃ r ∈ db.pizza_review, r.pizza_id = g.1 ∧
        ∃ s ∈ db.pizza_review_scores, s.pizza_review_id = r.id) ∧
    leaderboard db = leaderboard_query 10 db := by
  refine ⟨List.length_take_le _ _, ?_, ?_, rfl⟩
  · have hs : ((pizza_groups db).insertionSort groupGE).Pairwise groupGE :=
      List.sorted_insertionSort groupGE _
    have ht : (leaderboard_query lim db).Pairwise groupGE :=
      List.Pairwise.sublist (List.take_sublist _ _) hs
    exact ht.imp (fun hab => (groupGE_iff_avg_le _ _).mp hab)
  · intro g hg
    have h1 : g ∈ (pizza_groups db).insertionSort groupGE :=
      List.mem_of_mem_take hg
    have h2 : g ∈ pizza_groups db :=
      (List.perm_insertionSort groupGE _).mem_iff.mp h1
    obtain ⟨p, hp, hfp⟩ := List.mem_filterMap.mp h2
    by_cases h0 :
      ((joined_score_rows db).filter (fun q => q.1 = p.id)).length = 0
    · rw [dif_pos h0] at hfp
      cases hfp
    · rw [dif_neg h0] at hfp
      have hg1 : g.1 = p.id := by
        rw [← Option.some_inj.mp hfp]
      have hpos : 0 <
          ((joined_score_rows db).filter (fun q => q.1 = p.id)).length :=
        Nat.pos_of_ne_zero h0
      obtain ⟨q, hq⟩ := List.exists_mem_of_length_pos hpos
      have hqj : q ∈ joined_score_rows db := (List.mem_filter.mp hq).1
      have hqp : q.1 = p.id := by
        simpa using (List.mem_filter.mp hq).2
      obtain ⟨p', hp', hq2⟩ := List.mem_flatMap.mp hqj
      obtain ⟨r, hr, hq3⟩ := List.mem_flatMap.mp hq2
      obtain ⟨s, hs', hq4⟩ := List.mem_map.mp hq3
      have hrmem : r ∈ db.pizza_review := (List.mem_filter.mp hr).1
      have hrpid : r.pizza_id = p'.id := by
        simpa using (List.mem_filter.mp hr).2
      have hsmem : s ∈ db.pizza_review_scores := (List.mem_filter.mp hs').1
      have hsrid : s.pizza_review_id = r.id := by
        simpa using (List.mem_filter.mp hs').2
      have hq1 : q.1 = p'.id := by rw [← hq4]
      refine ⟨r, hrmem, ?_, s, hsmem, hsrid⟩
      rw [hrpid, ← hq1, hqp, hg1]

/-- A database where two pizzas (ids 1 and 2) each have one review with
a single score of 3 — equal means. -/
def exTieDB : DBState :=
  { chefs := [⟨1, "Mario", none⟩]
    pizzas := [⟨1, 1⟩, ⟨2, 1⟩]
    pizza_images := []
    review_categories :=
      [⟨1, "Shape"⟩, ⟨2, "Crust Quality"⟩, ⟨3, "Presentation"⟩,
       ⟨4, "Bake Quality"⟩, ⟨5, "Flavor (estimated)"⟩, ⟨6, "Overall"⟩]
    pizza_review := [⟨1, 1, "Good"⟩, ⟨2, 2, "Also good"⟩]
    pizza_review_scores := [⟨1, 1, 6, 3⟩, ⟨2, 2, 6, 3⟩]
    nextChefId := 2, nextPizzaId := 3, nextImageId := 1
    nextReviewId := 3, nextScoreId := 3 }

/-- C6, counterexample: the ordering is not strictly descending.  On
`exTieDB` two pizzas tie with mean 3, both appear, and consecutive
entries have equal — not strictly decreasing — means. -/
theorem leaderboard_tie_not_strictly_descending :
    leaderboard exTieDB = [(1, 3, 1), (2, 3, 1)] ∧
    groupAvg (1, 3, 1) = groupAvg (2, 3, 1) ∧
    ¬ (leaderboard exTieDB).Pairwise
        (fun a b => groupAvg b < groupAvg a) := by
  have h : leaderboard exTieDB = [(1, 3, 1), (2, 3, 1)] := by decide
  refine ⟨h, rfl, ?_⟩
  rw [h]
  intro hpw
  rw [List.pairwise_cons] at hpw
  have h2 : groupAvg (2, 3, 1) < groupAvg (1, 3, 1) :=
    hpw.1 (2, 3, 1) (List.mem_singleton_self _)
  have h3 : groupAvg (1, 3, 1) = groupAvg (2, 3, 1) := rfl
  rw [h3] at h2
  exact lt_irrefl _ h2

end Pizzatron

/-! ## Cascading chef deletion (src/db.py relationship declarations,
claim C8) -/

namespace Pizzatron

/-- Referential integrity of a database state: every foreign key along
the Chef → Pizza → (Image, Review) → Score ownership chain resolves. -/
def refIntact (db : DBState) : Prop :=
  (∀ p ∈ db.pizzas, ∃ c ∈ db.chefs, c.id = p.chef_id) ∧
  (∀ i ∈ db.pizza_images, ∃ p ∈ db.pizzas, p.id = i.pizza_id) ∧
  (∀ r ∈ db.pizza_review, ∃ p ∈ db.pizzas, p.id = r.pizza_id) ∧
  (∀ s ∈ db.pizza_review_scores,
    ∃ r ∈ db.pizza_review, r.id = s.pizza_review_id)

instance (db : DBState) : Decidable (refIntact db) := by
  unfold refIntact
  infer_instance

/-- Modelled from the spec: no chef-deletion operation appears under
src/ — only the cascade declarations it would follow
(`Chef.pizzas`, `Pizza.images`, `Pizza.review` and `PizzaReview.scores`,
each `cascade="all, delete-orphan"` in src/db.py).  Deleting a chef
therefore deletes the chef row, its pizzas, those pizzas' images and
reviews, and those reviews' scores. -/
def delete_chef (chef_id : Nat) (db : DBState) : DBState :=
  { db with
    chefs := db.chefs.filter (fun c => c.id ≠ chef_id)
    pizzas := db.pizzas.filter (fun p => p.chef_id ≠ chef_id)
    pizza_images := db.pizza_images.filter (fun i =>
      ¬ (db.pizzas.filter (fun p => p.chef_id = chef_id)).any
          (fun p => p.id = i.pizza_id))
    pizza_review := db.pizza_review.filter (fun r =>
      ¬ (db.pizzas.filter (fun p => p.chef_id = chef_id)).any
          (fun p => p.id = r.pizza_id))
    pizza_review_scores := db.pizza_review_scores.filter (fun s =>
      ¬ ((db.pizza_review.filter (fun r =>
            (db.pizzas.filter (fun p => p.chef_id = chef_id)).any
              (fun p => p.id = r.pizza_id))).any
          (fun r => r.id = s.pizza_review_id))) }

/-- C8: on a referentially intact state, deleting a chef removes the
chef, transitively removes all of its pizzas, their images, their
reviews and those reviews' scores, and leaves the state referentially
intact — no orphaned rows in any dependent table; and for a chef with
no pizzas every table other than `chefs` is left unchanged. -/
theorem delete_chef_no_orphans (chef_id : Nat) (db : DBState)
    (h : refIntact db) :
    refIntact (delete_chef chef_id db) ∧
    (∀ c ∈ (delete_chef chef_id db).chefs, c.id ≠ chef_id) ∧
    (∀ p ∈ (delete_chef chef_id db).pizzas, p.chef_id ≠ chef_id) ∧
    (delete_chef chef_id db).chefs
      = db.chefs.filter (fun c => c.id ≠ chef_id) ∧
    ((∀ p ∈ db.pizzas, p.chef_id ≠ chef_id) →
      ((delete_chef chef_id db).pizzas = db.pizzas ∧
       (delete_chef chef_id db).pizza_images = db.pizza_images ∧
       (delete_chef chef_id db).pizza_review = db.pizza_review ∧
       (delete_chef chef_id db).pizza_review_scores
         = db.pizza_review_scores)) := by
  obtain ⟨hpc, hip, hrp, hsr⟩ := h
  refine ⟨⟨?_, ?_, ?_, ?_⟩, ?_, ?_, rfl, ?_⟩
  · intro p hp
    have hmem : p ∈ db.pizzas := (List.mem_filter.mp hp).1
    have hnc : p.chef_id ≠ chef_id := by
      simpa using (List.mem_filter.mp hp).2
    obtain ⟨c, hc, hcid⟩ := hpc p hmem
    refine ⟨c, List.mem_filter.mpr ⟨hc, ?_⟩, hcid⟩
    simp
    intro hcc
    exact absurd (hcid ▸ hcc) hnc
  · intro i hi
    have hmem : i ∈ db.pizza_images := (List.mem_filter.mp hi).1
    have hnd : ¬ (db.pizzas.filter (fun p => p.chef_id = chef_id)).any
        (fun p => p.id = i.pizza_id) := by
      simpa using (List.mem_filter.mp hi).2
    obtain ⟨p, hp, hpid⟩ := hip i hmem
    have hnc : p.chef_id ≠ chef_id := by
      intro hcc
      exact hnd (List.any_eq_true.mpr
        ⟨p, List.mem_filter.mpr ⟨hp, by simp [hcc]⟩, by simp [hpid]⟩)
    exact ⟨p, List.mem_filter.mpr ⟨hp, by simp [hnc]⟩, hpid⟩
  · intro r hr
    have hmem : r ∈ db.pizza_review := (List.mem_filter.mp hr).1
    have hnd : ¬ (db.pizzas.filter (fun p => p.chef_id = chef_id)).any
        (fun p => p.id = r.pizza_id) := by
      simpa using (List.mem_filter.mp hr).2
    obtain ⟨p, hp, hpid⟩ := hrp r hmem
    have hnc : p.chef_id ≠ chef_id := by
      intro hcc
      exact hnd (List.any_eq_true.mpr
        ⟨p, List.mem_filter.mpr ⟨hp, by simp [hcc]⟩, by simp [hpid]⟩)
    exact ⟨p, List.mem_filter.mpr ⟨hp, by simp [hnc]⟩, hpid⟩
  · intro s hs
    have hmem : s ∈ db.pizza_review_scores := (List.mem_filter.mp hs).1
    have hnd : ¬ ((db.pizza_review.filter (fun r =>
          (db.pizzas.filter (fun p => p.chef_id = chef_id)).any
            (fun p => p.id = r.pizza_id))).any
        (fun r => r.id = s.pizza_review_id)) := by
      simpa using (List.mem_filter.mp hs).2
    obtain ⟨r, hr, hrid⟩ := hsr s hmem
    have hrnd : ¬ (db.pizzas.filter (fun p => p.chef_id = chef_id)).any
        (fun p => p.id = r.pizza_id) := by
      intro hrd
      exact hnd (List.any_eq_true.mpr
        ⟨r, List.mem_filter.mpr ⟨hr, by simpa using hrd⟩, by simp [hrid]⟩)
    exact ⟨r, List.mem_filter.mpr ⟨hr, by simpa using hrnd⟩, hrid⟩
  · intro c hc
    simpa using (List.mem_filter.mp hc).2
  · intro p hp
    simpa using (List.mem_filter.mp hp).2
  · intro hnone
    have hfilnil : db.pizzas.filter (fun p => p.chef_id = chef_id) = [] := by
      rw [List.filter_eq_nil_iff]
      intro p hp
      simpa using hnone p hp
    refine ⟨?_, ?_, ?_, ?_⟩
    · rw [show (delete_chef chef_id db).pizzas
          = db.pizzas.filter (fun p => p.chef_id ≠ chef_id) from rfl]
      rw [List.filter_eq_self]
      intro p hp
      simpa using hnone p hp
    · rw [show (delete_chef chef_id db).pizza_images
          = db.pizza_images.filter (fun i =>
              ¬ (db.pizzas.filter (fun p => p.chef_id = chef_id)).any
                (fun p => p.id = i.pizza_id)) from rfl]
      rw [List.filter_eq_self]
      intro i _
      simp [hfilnil]
    · rw [show (delete_chef chef_id db).pizza_review
          = db.pizza_review.filter (fun r =>
              ¬ (db.pizzas.filter (fun p => p.chef_id = chef_id)).any
                (fun p => p.id = r.pizza_id)) from rfl]
      rw [List.filter_eq_self]
      intro r _
      simp [hfilnil]
    · rw [show (delete_chef chef_id db).pizza_review_scores
          = db.pizza_review_scores.filter (fun s =>
              ¬ ((db.pizza_review.filter (fun r =>
                    (db.pizzas.filter (fun p => p.chef_id = chef_id)).any
                      (fun p => p.id = r.pizza_id))).any
                  (fun r => r.id = s.pizza_review_id))) from rfl]
      rw [List.filter_eq_self]
      intro s _
      simp [hfilnil]

end Pizzatron

namespace Pizzatron

/-- Witness for `delete_chef_no_orphans`: delete chef 1 (who owns both
pizzas, their reviews and scores) from `exTieDB`. -/
theorem delete_chef_no_orphans_witness :
    refIntact exTieDB ∧
    (refIntact (delete_chef 1 exTieDB) ∧
     (∀ c ∈ (delete_chef 1 exTieDB).chefs, c.id ≠ 1) ∧
     (∀ p ∈ (delete_chef 1 exTieDB).pizzas, p.chef_id ≠ 1) ∧
     (delete_chef 1 exTieDB).chefs
       = exTieDB.chefs.filter (fun c => c.id ≠ 1) ∧
     ((∀ p ∈ exTieDB.pizzas, p.chef_id ≠ 1) →
       ((delete_chef 1 exTieDB).pizzas = exTieDB.pizzas ∧
        (delete_chef 1 exTieDB).pizza_images = exTieDB.pizza_images ∧
        (delete_chef 1 exTieDB).pizza_review = exTieDB.pizza_review ∧
        (delete_chef 1 exTieDB).pizza_review_scores
          = exTieDB.pizza_review_scores))) :=
  ⟨by decide, delete_chef_no_orphans 1 exTieDB (by decide)⟩

end Pizzatron
